import Mathlib

/-
Verification development for the google_tasks todo component
(homeassistant/components/google_tasks/todo.py).

The Python module is shallowly embedded below: its pure helpers become Lean
functions, Python `datetime` values become the `PyDatetime` structure, regular
expression search (`re.search`) is modelled by a small backtracking matcher with
Python's leftmost/first-alternative/greedy preference order, `datetime.strptime`
is modelled per format string by parsers with the same backtracking acceptance,
and code that can raise (`KeyError`, `TypeError` from comparing naive and aware
datetimes) returns `Except`.
-/

/-! ## Python datetime values -/

/-- A Python `datetime.datetime` value at second granularity.  `tz = none` is a
naive datetime, `tz = some o` a timezone-aware one with a fixed UTC offset of
`o` minutes. -/
structure PyDatetime where
  year : Nat
  month : Nat
  day : Nat
  hour : Nat
  minute : Nat
  second : Nat
  tz : Option Int
  deriving DecidableEq, Repr

/-- Python `datetime.max` (at the second granularity of this model): a naive
datetime. -/
def datetimeMax : PyDatetime := ⟨9999, 12, 31, 23, 59, 59, none⟩

def isLeapYear (y : Nat) : Bool :=
  (y % 4 == 0 && y % 100 != 0) || (y % 400 == 0)

def daysInMonth (y m : Nat) : Nat :=
  if m = 2 then (if isLeapYear y then 29 else 28)
  else if m = 4 ∨ m = 6 ∨ m = 9 ∨ m = 11 then 30
  else 31

/-- Days since 1970-01-01 of a civil date (standard civil-from-days algorithm). -/
def daysFromCivil (y m d : Int) : Int :=
  let y2 : Int := if m ≤ 2 then y - 1 else y
  let era : Int := Int.fdiv y2 400
  let yoe : Int := y2 - era * 400
  let mp : Int := if m > 2 then m - 3 else m + 9
  let doy : Int := (153 * mp + 2) / 5 + d - 1
  let doe : Int := yoe * 365 + yoe / 4 - yoe / 100 + doy
  era * 146097 + doe - 719468

/-- Civil date of a count of days since 1970-01-01 (inverse of `daysFromCivil`). -/
def civilFromDays (z0 : Int) : Int × Int × Int :=
  let z := z0 + 719468
  let era : Int := Int.fdiv z 146097
  let doe : Int := z - era * 146097
  let yoe : Int := (doe - doe / 1460 + doe / 36524 - doe / 146096) / 365
  let y : Int := yoe + era * 400
  let doy : Int := doe - (365 * yoe + yoe / 4 - yoe / 100)
  let mp : Int := (5 * doy + 2) / 153
  let d : Int := doy - (153 * mp + 2) / 5 + 1
  let m : Int := if mp < 10 then mp + 3 else mp - 9
  (if m ≤ 2 then y + 1 else y, m, d)

/-- Minutes since the epoch of the datetime's wall-clock fields. -/
def dtMinutes (dt : PyDatetime) : Int :=
  daysFromCivil dt.year dt.month dt.day * 1440 + dt.hour * 60 + dt.minute

/-- UTC instant in seconds of an aware datetime with offset `off` minutes. -/
def dtInstantSeconds (dt : PyDatetime) (off : Int) : Int :=
  (dtMinutes dt - off) * 60 + dt.second

def cmpN (a b : Nat) : Ordering :=
  if a < b then .lt else if b < a then .gt else .eq

def cmpI (a b : Int) : Ordering :=
  if a < b then .lt else if b < a then .gt else .eq

/-- Python `bool` ordering: `False < True`. -/
def cmpB (a b : Bool) : Ordering :=
  if a = b then .eq else if a then .gt else .lt

def lexO (o k : Ordering) : Ordering :=
  match o with
  | .eq => k
  | o => o

/-- Python comparison of two datetimes.  Naive datetimes compare by their fields,
aware datetimes compare by UTC instant, and comparing a naive with an aware
datetime raises `TypeError` (`none` here). -/
def cmpDatetime (a b : PyDatetime) : Option Ordering :=
  match a.tz, b.tz with
  | none, none =>
    some (lexO (cmpN a.year b.year) (lexO (cmpN a.month b.month) (lexO (cmpN a.day b.day)
      (lexO (cmpN a.hour b.hour) (lexO (cmpN a.minute b.minute) (cmpN a.second b.second))))))
  | some oa, some ob => some (cmpI (dtInstantSeconds a oa) (dtInstantSeconds b ob))
  | _, _ => none

/-! ## Regular expressions (the fragment used by `re.search` in todo.py)

`matchesRem r s` returns the list of possible remainders after matching `r`
against a prefix of `s`, in Python's backtracking preference order (alternatives
left to right; in particular greedy forms are encoded with the longer branch
first).  `searchRE` scans for the leftmost starting position with a match and
returns the preferred match there, exactly as `re.search` does. -/

inductive RE where
  | eps
  | chr (c : Char)
  | cls (cs : List Char)
  | seq (a b : RE)
  | alt (a b : RE)
  deriving Repr

def matchesRem : RE → List Char → List (List Char)
  | .eps, s => [s]
  | .chr _, [] => []
  | .chr c, x :: s => if x = c then [s] else []
  | .cls _, [] => []
  | .cls cs, x :: s => if cs.contains x then [s] else []
  | .seq a b, s => (matchesRem a s).flatMap (matchesRem b)
  | .alt a b, s => matchesRem a s ++ matchesRem b s

def firstRem (r : RE) (s : List Char) : Option (List Char) :=
  match matchesRem r s with
  | rem :: _ => some rem
  | [] => none

/-- Leftmost search: the matched substring of the preferred match at the first
position where the pattern matches, like `re.search(...).group()`. -/
def searchRE (r : RE) : List Char → Option (List Char)
  | [] =>
    match firstRem r [] with
    | some _ => some []
    | none => none
  | s@(_ :: t) =>
    match firstRem r s with
    | some rem => some (s.take (s.length - rem.length))
    | none => searchRE r t

def reStr (cs : List Char) : RE :=
  cs.foldr (fun c r => RE.seq (RE.chr c) r) RE.eps

def reSeqs (rs : List RE) : RE := rs.foldr RE.seq RE.eps

def reAlts : List RE → RE
  | [] => RE.eps
  | [r] => r
  | r :: rest => RE.alt r (reAlts rest)

/-- Greedy `?`: the present branch is preferred. -/
def reOpt (r : RE) : RE := RE.alt r RE.eps

def reDigit : RE := RE.cls "0123456789".toList

/-- Python regex `\s` character class. -/
def wsChars : List Char := [' ', '\t', '\n', '\r', '\x0b', '\x0c']

def reWs : RE := RE.cls wsChars

def reDigits (n : Nat) : RE := reSeqs (List.replicate n reDigit)

/-- Greedy `\d{1,2}`: two digits preferred over one. -/
def reD12 : RE := RE.alt (reSeqs [reDigit, reDigit]) reDigit

def MONTH_ABBRS : List String :=
  ["Jan", "Feb", "Mar", "Apr", "May", "Jun", "Jul", "Aug", "Sep", "Oct", "Nov", "Dec"]

/-- Regex alternation `(?:Jan|Feb|...|Dec)`. -/
def reMonthAbbr : RE := reAlts (MONTH_ABBRS.map (fun s => reStr s.toList))

/-! ## DATE_PATTERNS and TIME_PATTERN from todo.py -/

/-- Format strings paired with the patterns in `DATE_PATTERNS`. -/
inductive DateFmt where
  | YmdSlash   -- "%Y/%m/%d"
  | dmYSlash   -- "%d/%m/%Y"
  | mdYSlash   -- "%m/%d/%Y"
  | dbY        -- "%d %b %Y"
  | bdY        -- "%b %d %Y"
  | Ybd        -- "%Y %b %d"
  | Ydb        -- "%Y %d %b"
  deriving DecidableEq, Repr

/-- Regex `\d{4}/\d{2}/\d{2}`. -/
def reYmdSlash : RE := reSeqs [reDigits 4, RE.chr '/', reDigits 2, RE.chr '/', reDigits 2]

/-- Regex `\d{2}/\d{2}/\d{4}`, shared by the `%d/%m/%Y` and `%m/%d/%Y` entries. -/
def reDDSlash : RE := reSeqs [reDigits 2, RE.chr '/', reDigits 2, RE.chr '/', reDigits 4]

/-- The ordered `DATE_PATTERNS` table of todo.py: (regex, strptime format). -/
def DATE_PATTERNS : List (RE × DateFmt) :=
  [ (reYmdSlash, .YmdSlash),
    (reDDSlash, .dmYSlash),
    (reDDSlash, .mdYSlash),
    (reSeqs [reD12, reWs, reMonthAbbr, reWs, reDigits 4], .dbY),
    (reSeqs [reMonthAbbr, reWs, reD12, reOpt (RE.chr ','), reWs, reDigits 4], .bdY),
    (reSeqs [reMonthAbbr, reWs, reD12, reWs, reDigits 4], .bdY),
    (reSeqs [reDigits 4, reWs, reMonthAbbr, reWs, reD12], .Ybd),
    (reSeqs [reDigits 4, reWs, reD12, reWs, reMonthAbbr], .Ydb) ]

/-- TIME_PATTERN of todo.py: `(\d{1,2}:\d{2}(?:\s?[AP]M)?)` (note: `[AP]M` is
uppercase-only and the search is not case-insensitive). -/
def TIME_PATTERN : RE :=
  reSeqs [reD12, RE.chr ':', reDigits 2,
          reOpt (reSeqs [reOpt reWs, RE.cls ['A', 'P'], RE.chr 'M'])]

/-! ## datetime.strptime for the formats used in todo.py

`datetime.strptime` compiles each format to a regex (with the CPython
alternation for each directive, e.g. `%d` is `(3[01]|[12]\d|0[1-9]|[1-9])` and
whitespace in the format is `\s+`), matches it against the whole string and
raises `ValueError` on failure, including when the resulting calendar date is
invalid.  It is modelled per format by a backtracking parser with the same
ordered alternatives whose first parse consuming the entire string wins; on the
inputs produced by the patterns above this coincides with strptime. -/

def PP (α : Type) : Type := List Char → List (α × List Char)

def ppure {α : Type} (a : α) : PP α := fun s => [(a, s)]

def pfail {α : Type} : PP α := fun _ => []

def pbind {α β : Type} (p : PP α) (f : α → PP β) : PP β :=
  fun s => (p s).flatMap (fun ar => f ar.1 ar.2)

def palt {α : Type} (p q : PP α) : PP α := fun s => p s ++ q s

def pdigit : PP Nat := fun s =>
  match s with
  | c :: t => if '0' ≤ c ∧ c ≤ '9' then [(c.toNat - '0'.toNat, t)] else []
  | [] => []

def pchar (c : Char) : PP Unit := fun s =>
  match s with
  | x :: t => if x = c then [((), t)] else []
  | [] => []

/-- Two digits constrained by `ok`, as one alternative of a strptime directive. -/
def p2 (ok : Nat → Nat → Bool) : PP Nat :=
  pbind pdigit (fun a => pbind pdigit (fun b => if ok a b then ppure (10 * a + b) else pfail))

/-- One digit constrained by `ok`. -/
def p1 (ok : Nat → Bool) : PP Nat :=
  pbind pdigit (fun a => if ok a then ppure a else pfail)

/-- strptime `%Y`: exactly four digits. -/
def pYear : PP Nat :=
  pbind pdigit (fun a => pbind pdigit (fun b => pbind pdigit (fun c =>
    pbind pdigit (fun d => ppure (((a * 10 + b) * 10 + c) * 10 + d)))))

/-- strptime `%m`: `(1[0-2]|0[1-9]|[1-9])`. -/
def pMonthNum : PP Nat :=
  palt (p2 (fun a b => (a == 1 && decide (b ≤ 2)) || (a == 0 && decide (1 ≤ b))))
       (p1 (fun a => decide (1 ≤ a)))

/-- strptime `%d`: `(3[01]|[12]\d|0[1-9]|[1-9])`. -/
def pDayNum : PP Nat :=
  palt (p2 (fun a b => (a == 3 && decide (b ≤ 1)) || a == 1 || a == 2 ||
                       (a == 0 && decide (1 ≤ b))))
       (p1 (fun a => decide (1 ≤ a)))

/-- strptime `%H`: `(2[0-3]|[0-1]\d|\d)`. -/
def pHour24 : PP Nat :=
  palt (p2 (fun a b => (a == 2 && decide (b ≤ 3)) || decide (a ≤ 1)))
       (p1 (fun _ => true))

/-- strptime `%I`: `(1[0-2]|0[1-9]|[1-9])`. -/
def pHour12 : PP Nat :=
  palt (p2 (fun a b => (a == 1 && decide (b ≤ 2)) || (a == 0 && decide (1 ≤ b))))
       (p1 (fun a => decide (1 ≤ a)))

/-- strptime `%M`: `([0-5]\d|\d)`. -/
def pMinute : PP Nat :=
  palt (p2 (fun a _ => decide (a ≤ 5))) (p1 (fun _ => true))

def isSpaceChar (c : Char) : Bool := wsChars.contains c

/-- Remainders after consuming one or more leading whitespace characters,
longest first (strptime turns format whitespace into greedy `\s+`). -/
def pWhiteRem : List Char → List (Unit × List Char)
  | c :: t => if isSpaceChar c then pWhiteRem t ++ [((), t)] else []
  | [] => []

def pWhite : PP Unit := pWhiteRem

/-- Case-insensitive literal, used by strptime for `%b` and `%p`. -/
def pStrCI : List Char → PP Unit
  | [] => ppure ()
  | c :: cs =>
    pbind (fun s =>
      match s with
      | x :: t => if x.toLower = c.toLower then [((), t)] else []
      | [] => [])
      (fun _ => pStrCI cs)

/-- strptime `%b`: month abbreviations, case-insensitive. -/
def pMonthName : PP Nat :=
  ([("Jan", 1), ("Feb", 2), ("Mar", 3), ("Apr", 4), ("May", 5), ("Jun", 6), ("Jul", 7),
    ("Aug", 8), ("Sep", 9), ("Oct", 10), ("Nov", 11), ("Dec", 12)] : List (String × Nat)).foldr
    (fun mi acc => palt (pbind (pStrCI mi.1.toList) (fun _ => ppure mi.2)) acc) pfail

/-- strptime `%p`: AM/PM, case-insensitive; `true` means PM. -/
def pAmPm : PP Bool :=
  palt (pbind (pStrCI "AM".toList) (fun _ => ppure false))
       (pbind (pStrCI "PM".toList) (fun _ => ppure true))

/-- First parse that consumes the whole input (strptime accepts only a
whole-string match). -/
def runFull {α : Type} (p : PP α) (s : List Char) : Option α :=
  match (p s).find? (fun ar => ar.2.isEmpty) with
  | some ar => some ar.1
  | none => none

/-- Validation performed by the `datetime` constructor that strptime calls:
year within MINYEAR..MAXYEAR, month 1..12, day within the month.  A parsed date
has hour = minute = second = 0 and is naive, as in Python. -/
def mkDate (y m d : Nat) : Option PyDatetime :=
  if 1 ≤ y ∧ y ≤ 9999 ∧ 1 ≤ m ∧ m ≤ 12 ∧ 1 ≤ d ∧ d ≤ daysInMonth y m then
    some ⟨y, m, d, 0, 0, 0, none⟩
  else none

def pSlashYmd : PP (Nat × Nat × Nat) :=
  pbind pYear (fun y => pbind (pchar '/') (fun _ => pbind pMonthNum (fun m =>
    pbind (pchar '/') (fun _ => pbind pDayNum (fun d => ppure (y, m, d))))))

def pSlashDmy : PP (Nat × Nat × Nat) :=
  pbind pDayNum (fun d => pbind (pchar '/') (fun _ => pbind pMonthNum (fun m =>
    pbind (pchar '/') (fun _ => pbind pYear (fun y => ppure (y, m, d))))))

def pSlashMdy : PP (Nat × Nat × Nat) :=
  pbind pMonthNum (fun m => pbind (pchar '/') (fun _ => pbind pDayNum (fun d =>
    pbind (pchar '/') (fun _ => pbind pYear (fun y => ppure (y, m, d))))))

def pDbY : PP (Nat × Nat × Nat) :=
  pbind pDayNum (fun d => pbind pWhite (fun _ => pbind pMonthName (fun m =>
    pbind pWhite (fun _ => pbind pYear (fun y => ppure (y, m, d))))))

def pBdY : PP (Nat × Nat × Nat) :=
  pbind pMonthName (fun m => pbind pWhite (fun _ => pbind pDayNum (fun d =>
    pbind pWhite (fun _ => pbind pYear (fun y => ppure (y, m, d))))))

def pYbd : PP (Nat × Nat × Nat) :=
  pbind pYear (fun y => pbind pWhite (fun _ => pbind pMonthName (fun m =>
    pbind pWhite (fun _ => pbind pDayNum (fun d => ppure (y, m, d))))))

def pYdb : PP (Nat × Nat × Nat) :=
  pbind pYear (fun y => pbind pWhite (fun _ => pbind pDayNum (fun d =>
    pbind pWhite (fun _ => pbind pMonthName (fun m => ppure (y, m, d))))))

/-- The parser of each date format string. -/
def dateFmtP : DateFmt → PP (Nat × Nat × Nat)
  | .YmdSlash => pSlashYmd
  | .dmYSlash => pSlashDmy
  | .mdYSlash => pSlashMdy
  | .dbY => pDbY
  | .bdY => pBdY
  | .Ybd => pYbd
  | .Ydb => pYdb

/-- `datetime.strptime(s, fmt)` for the seven date formats of `DATE_PATTERNS`;
`none` models `ValueError`. -/
def strptimeDate (fmt : DateFmt) (s : List Char) : Option PyDatetime :=
  match runFull (dateFmtP fmt) s with
  | some ymd => mkDate ymd.1 ymd.2.1 ymd.2.2
  | none => none

/-- `datetime.strptime(s, "%H:%M")`, reduced to its (hour, minute). -/
def strptimeHM (s : List Char) : Option (Nat × Nat) :=
  runFull (pbind pHour24 (fun h => pbind (pchar ':') (fun _ =>
    pbind pMinute (fun m => ppure (h, m))))) s

/-- CPython's 12-hour to 24-hour conversion for `%I` with `%p`. -/
def to24Hour (h : Nat) (isPm : Bool) : Nat :=
  if isPm then (if h = 12 then 12 else h + 12)
  else (if h = 12 then 0 else h)

/-- `datetime.strptime(s, "%I:%M %p")`, reduced to its (hour, minute). -/
def strptimeIMp (s : List Char) : Option (Nat × Nat) :=
  match runFull (pbind pHour12 (fun h => pbind (pchar ':') (fun _ =>
    pbind pMinute (fun m => pbind pWhite (fun _ =>
    pbind pAmPm (fun pm => ppure (h, m, pm))))))) s with
  | some hmp => some (to24Hour hmp.1 hmp.2.2, hmp.2.1)
  | none => none

/-! ## Priority detection (_is_priority_task) -/

def PRIORITY_KEYWORDS : List String :=
  ["ASAP", "Urgent", "Immediately", "Critical", "Important", "Top Priority",
   "Must Do", "High Importance"]

/-- Python substring containment (`needle in haystack`). -/
def leadsWith : List Char → List Char → Bool
  | [], _ => true
  | _ :: _, [] => false
  | a :: as, b :: bs => a == b && leadsWith as bs

def containsSub (needle : List Char) : List Char → Bool
  | [] => needle.isEmpty
  | x :: t => if leadsWith needle (x :: t) then true else containsSub needle t

/-- Python `str.lower` (ASCII, which covers every string the module compares). -/
def lowerL (s : List Char) : List Char := s.map Char.toLower

/-- todo.py `_is_priority_task`: lowercases `f"{title} {description or ''}"` and
checks each lowercased keyword for plain substring containment. -/
def _is_priority_task (title : String) (description : Option String) : Bool :=
  let text := lowerL (title ++ " " ++ description.getD "").toList
  PRIORITY_KEYWORDS.any (fun keyword => containsSub (lowerL keyword.toList) text)

/-! ## _extract_date_time -/

/-- Python `str.strip()`. -/
def stripSpaces (s : List Char) : List Char :=
  ((s.dropWhile isSpaceChar).reverse.dropWhile isSpaceChar).reverse

/-- The `for pattern, date_format in DATE_PATTERNS` loop of `_extract_date_time`:
first search the text, then try to parse the matched substring; a parse failure
(`ValueError`) continues with the next pattern; stop at the first success. -/
def dateLoop : List (RE × DateFmt) → List Char → Option PyDatetime
  | [], _ => none
  | pf :: rest, text =>
    match searchRE pf.1 text with
    | some m =>
      match strptimeDate pf.2 m with
      | some d => some d
      | none => dateLoop rest text
    | none => dateLoop rest text

/-- The time-combination branch: 12-hour parse when the raw time substring
contains "AM" or "PM" (uppercase, via `in`), 24-hour parse otherwise. -/
def timeParse (tm : List Char) : Option (Nat × Nat) :=
  if containsSub "AM".toList tm || containsSub "PM".toList tm then
    strptimeIMp (stripSpaces tm)
  else
    strptimeHM (stripSpaces tm)

/-- `extracted_date.replace(hour=..., minute=...)` on time-parse success; the
`except ValueError: pass` keeps the date unchanged on failure. -/
def applyTime (d : PyDatetime) (tm : List Char) : PyDatetime :=
  match timeParse tm with
  | some hm => { d with hour := hm.1, minute := hm.2 }
  | none => d

/-- todo.py `_extract_date_time`. -/
def _extract_date_time (text : String) : Option PyDatetime × Option String :=
  let extracted_date := dateLoop DATE_PATTERNS text.toList
  let extracted_time := searchRE TIME_PATTERN text.toList
  match extracted_date, extracted_time with
  | some d, some tm => (some (applyTime d tm), some (String.mk tm))
  | d?, tm? => (d?, tm?.map String.mk)

/-! ## External datetime helpers (homeassistant.util.dt), modelled from the spec -/

/-- Exactly two digits. -/
def pD2 : PP Nat :=
  pbind pdigit (fun a => pbind pdigit (fun b => ppure (10 * a + b)))

/-- Remainders after one or more digits (fractional seconds), longest first. -/
def pDigitsRem : List Char → List (Unit × List Char)
  | c :: t => if decide ('0' ≤ c) && decide (c ≤ '9') then pDigitsRem t ++ [((), t)] else []
  | [] => []

/-- Optional timezone suffix: `Z` or `±HH:MM`; `none` when absent. -/
def pTzOpt : PP (Option Int) :=
  palt (pbind (pchar 'Z') (fun _ => ppure (some (0 : Int))))
    (palt
      (pbind (pchar '+') (fun _ => pbind pD2 (fun h => pbind (pchar ':') (fun _ =>
        pbind pD2 (fun m => ppure (some ((h * 60 + m : Nat) : Int)))))))
      (palt
        (pbind (pchar '-') (fun _ => pbind pD2 (fun h => pbind (pchar ':') (fun _ =>
          pbind pD2 (fun m => ppure (some (-((h * 60 + m : Nat) : Int))))))))
        (ppure none)))

/-- Field validation done by the `datetime` constructor. -/
def mkDateTime (y mo d h mi sec : Nat) (tz : Option Int) : Option PyDatetime :=
  if 1 ≤ y ∧ y ≤ 9999 ∧ 1 ≤ mo ∧ mo ≤ 12 ∧ 1 ≤ d ∧ d ≤ daysInMonth y mo ∧
     h ≤ 23 ∧ mi ≤ 59 ∧ sec ≤ 59 then
    some ⟨y, mo, d, h, mi, sec, tz⟩
  else none

/-- Modelled from the spec: `homeassistant.util.dt.parse_datetime` is imported
from outside this repository's source files.  Per the spec, a record's `due` is
an "optional ISO-8601 UTC timestamp string" that is "parsed directly from
`record.due` if present and parseable".  Modelled as an ISO-8601 parser for
`YYYY-MM-DDTHH:MM:SS` (with `T` or space as separator, an optional fractional
second part, and an optional `Z` or `±HH:MM` offset), returning a
timezone-aware datetime when an offset is present, a naive one otherwise, and
`none` for strings that are not valid ISO-8601 timestamps. -/
abbrev PyDatetimeTuple : Type :=
  Nat × Nat × Nat × Nat × Nat × Nat × Option Int

def pIsoTail (y mo d : Nat) : PP PyDatetimeTuple :=
  pbind pD2 (fun h =>
  pbind (pchar ':') (fun _ =>
  pbind pD2 (fun mi =>
  pbind (pchar ':') (fun _ =>
  pbind pD2 (fun sec =>
  pbind (palt (pbind (pchar '.') (fun _ => pDigitsRem)) (ppure ())) (fun _ =>
  pbind pTzOpt (fun tz =>
  ppure (y, mo, d, h, mi, sec, tz))))))))

def pIso : PP PyDatetimeTuple :=
  pbind pYear (fun y =>
  pbind (pchar '-') (fun _ =>
  pbind pD2 (fun mo =>
  pbind (pchar '-') (fun _ =>
  pbind pD2 (fun d =>
  pbind (palt (pchar 'T') (pchar ' ')) (fun _ =>
  pIsoTail y mo d))))))

def parse_datetime (s : String) : Option PyDatetime :=
  match runFull pIso s.toList with
  | some v =>
    mkDateTime v.1 v.2.1 v.2.2.1 v.2.2.2.1 v.2.2.2.2.1 v.2.2.2.2.2.1 v.2.2.2.2.2.2
  | none => none

/-- Modelled from the spec: `homeassistant.util.dt.as_utc` is imported from
outside this repository's source files.  The spec's scope is "no
timezone-database handling beyond UTC normalization", so the conversion
normalizes a timestamp to UTC: an aware timestamp is shifted by its offset to
offset zero, and a naive timestamp is taken as already denoting UTC and is
marked aware.  The result always carries the UTC offset `+00:00`. -/
def as_utc (dt : PyDatetime) : PyDatetime :=
  match dt.tz with
  | none => { dt with tz := some 0 }
  | some o =>
    let total : Int := dtMinutes dt - o
    let dayv : Int := Int.fdiv total 1440
    let rem : Int := total - dayv * 1440
    let ymd := civilFromDays dayv
    { year := ymd.1.toNat, month := ymd.2.1.toNat, day := ymd.2.2.toNat,
      hour := (rem / 60).toNat, minute := (rem % 60).toNat,
      second := dt.second, tz := some 0 }

/-! ## ISO rendering and _format_due_datetime -/

def pad2 (n : Nat) : String :=
  if n < 10 then "0" ++ toString n else toString n

def pad4 (n : Nat) : String :=
  if n < 10 then "000" ++ toString n
  else if n < 100 then "00" ++ toString n
  else if n < 1000 then "0" ++ toString n
  else toString n

def isoformatBase (dt : PyDatetime) : String :=
  pad4 dt.year ++ "-" ++ pad2 dt.month ++ "-" ++ pad2 dt.day ++ "T" ++
  pad2 dt.hour ++ ":" ++ pad2 dt.minute ++ ":" ++ pad2 dt.second

def offsetStr (o : Int) : String :=
  if 0 ≤ o then "+" ++ pad2 (o.toNat / 60) ++ ":" ++ pad2 (o.toNat % 60)
  else "-" ++ pad2 ((-o).toNat / 60) ++ ":" ++ pad2 ((-o).toNat % 60)

/-- Python `datetime.isoformat()`: a naive datetime renders without an offset
suffix, an aware one appends its UTC offset (`+00:00` for UTC). -/
def isoformat (dt : PyDatetime) : String :=
  match dt.tz with
  | none => isoformatBase dt
  | some o => isoformatBase dt ++ offsetStr o

/-- todo.py `_format_due_datetime`: `due.isoformat() + "Z"`. -/
def _format_due_datetime (due : PyDatetime) : String :=
  isoformat due ++ "Z"

/-! ## TodoItem, status maps and the item codec -/

inductive TodoItemStatus where
  | needsAction
  | completed
  deriving DecidableEq, Repr

/-- The `TODO_STATUS_MAP` dict lookup (`.get(s)`). -/
def TODO_STATUS_MAP (s : String) : Option TodoItemStatus :=
  if s = "needsAction" then some .needsAction
  else if s = "completed" then some .completed
  else none

/-- The inverted map `TODO_STATUS_MAP_INV.get(status, "needsAction")`; an item
status of `None` is not a key and falls back to the default. -/
def TODO_STATUS_MAP_INV (s : Option TodoItemStatus) : String :=
  match s with
  | some .needsAction => "needsAction"
  | some .completed => "completed"
  | none => "needsAction"

/-- The local `TodoItem` (homeassistant.components.todo): every field optional. -/
structure TodoItem where
  summary : Option String
  uid : Option String
  status : Option TodoItemStatus
  due : Option PyDatetime
  description : Option String
  deriving DecidableEq, Repr

/-- A remote task record: a mapping whose keys may each be absent. -/
structure ApiTaskRecord where
  id : Option String
  title : Option String
  status : Option String
  due : Option String
  notes : Option String
  deriving DecidableEq, Repr

/-- The mapping built by `_convert_todo_item` for insert/patch calls. -/
structure ApiTaskOut where
  title : Option String
  status : String
  due : Option String
  notes : Option String
  deriving DecidableEq, Repr

/-- todo.py `_convert_todo_item`.  `due` is emitted only when the item has one
(datetimes are always truthy); `notes` only when the description is a nonempty
string (`if item.description:`). -/
def _convert_todo_item (item : TodoItem) : ApiTaskOut :=
  { title := item.summary
    status := TODO_STATUS_MAP_INV item.status
    due :=
      match item.due with
      | some d => some (_format_due_datetime (as_utc d))
      | none => none
    notes :=
      match item.description with
      | some s => if s ≠ "" then some s else none
      | none => none }

/-- todo.py `_convert_api_item`.  `item["title"]` and `item["id"]` raise
`KeyError` when absent (title first, per argument evaluation order); `status`,
`due` and `notes` use `.get` and never fail.  When `due` is present it is
parsed directly (possibly to `None`); only when absent is the extractor run
over `f"{title} {notes}"`. -/
def _convert_api_item (item : ApiTaskRecord) : Except String TodoItem :=
  let due : Option PyDatetime :=
    match item.due with
    | some due_str => parse_datetime due_str
    | none =>
      let title := item.title.getD ""
      let notes := item.notes.getD ""
      (_extract_date_time (title ++ " " ++ notes)).1
  match item.title with
  | none => .error "KeyError: title"
  | some t =>
    match item.id with
    | none => .error "KeyError: id"
    | some i =>
      .ok { summary := some t
            uid := some i
            status := some ((TODO_STATUS_MAP (item.status.getD "")).getD .needsAction)
            due := due
            description := item.notes }

/-! ## _order_tasks -/

/-- `task.get("status") == "completed"`. -/
def completedB (task : ApiTaskRecord) : Bool := task.status == some "completed"

/-- The `title`/`notes` fallback lines of `get_due_date`:
`extracted_datetime or datetime.max`. -/
def getDueFallback (task : ApiTaskRecord) : Option PyDatetime :=
  let title := task.title.getD ""
  let notes := task.notes.getD ""
  match (_extract_date_time (title ++ " " ++ notes)).1 with
  | some d => some d
  | none => some datetimeMax

/-- todo.py `_order_tasks.get_due_date`.  A truthy (present, nonempty) `due`
string returns `parse_datetime(due_str)` directly — which is `None` when the
string is unparseable; the extractor/`datetime.max` fallback runs only for an
absent or empty `due`. -/
def get_due_date (task : ApiTaskRecord) : Option PyDatetime :=
  match task.due with
  | some due_str => if due_str ≠ "" then parse_datetime due_str else getDueFallback task
  | none => getDueFallback task

/-- The `(is_completed, not is_priority, due_date)` sort key. -/
abbrev SortKey : Type := Bool × Bool × Option PyDatetime

/-- Python comparison of two sort keys: lexicographic on the tuple, where the
third components may be incomparable (`TypeError`, here `none`) when one is a
naive and the other an aware datetime, or one is `None` and the other a
datetime. -/
def cmpOptDT (a b : Option PyDatetime) : Option Ordering :=
  match a, b with
  | none, none => some .eq
  | some x, some y => cmpDatetime x y
  | _, _ => none

def cmpKey (k1 k2 : SortKey) : Option Ordering :=
  match cmpB k1.1 k2.1 with
  | .eq =>
    match cmpB k1.2.1 k2.2.1 with
    | .eq => cmpOptDT k1.2.2 k2.2.2
    | o => some o
  | o => some o

/-- todo.py `_order_tasks.sort_key`: `task["title"]` raises `KeyError` when the
record has no title. -/
def sort_key (task : ApiTaskRecord) : Except String SortKey :=
  match task.title with
  | none => .error "KeyError: title"
  | some t => .ok (completedB task, ! _is_priority_task t task.notes, get_due_date task)

/-- Stable insertion of a keyed task: the new element goes before the first
element it does not compare greater than; a needed comparison between
incomparable keys fails like Python's `TypeError`. -/
def insertK (x : ApiTaskRecord × SortKey) :
    List (ApiTaskRecord × SortKey) → Except String (List (ApiTaskRecord × SortKey))
  | [] => .ok [x]
  | y :: ys =>
    match cmpKey x.2 y.2 with
    | none => .error "TypeError: naive and aware datetimes are not comparable"
    | some .gt =>
      match insertK x ys with
      | .ok r => .ok (y :: r)
      | .error e => .error e
    | some _ => .ok (x :: y :: ys)

def isortK : List (ApiTaskRecord × SortKey) → Except String (List (ApiTaskRecord × SortKey))
  | [] => .ok []
  | x :: xs =>
    match isortK xs with
    | .ok r => insertK x r
    | .error e => .error e

/-- Keys are computed once per element, left to right, as `sorted(..., key=...)`
does. -/
def keyTasksE : List ApiTaskRecord → Except String (List (ApiTaskRecord × SortKey))
  | [] => .ok []
  | t :: ts =>
    match sort_key t with
    | .error e => .error e
    | .ok k =>
      match keyTasksE ts with
      | .ok r => .ok ((t, k) :: r)
      | .error e => .error e

/-- Python's `sorted(part, key=sort_key)`: compute all keys, then run a stable
comparison sort.  Modelled as stable insertion sort failing on the comparisons
it needs; on inputs whose keys are pairwise comparable this is exactly the
unique stable sort that `sorted` computes. -/
def sortedByKeyE (part : List ApiTaskRecord) : Except String (List ApiTaskRecord) :=
  match keyTasksE part with
  | .error e => .error e
  | .ok kl =>
    match isortK kl with
    | .ok s => .ok (s.map Prod.fst)
    | .error e => .error e

/-- todo.py `_order_tasks`: partition by status, sort each partition (the
incomplete partition is sorted first, as in the source), return completed
tasks followed by incomplete tasks. -/
def _order_tasks (tasks : List ApiTaskRecord) : Except String (List ApiTaskRecord) :=
  let incomplete_tasks := tasks.filter (fun task => ! completedB task)
  let completed_tasks := tasks.filter (fun task => completedB task)
  match sortedByKeyE incomplete_tasks with
  | .error e => .error e
  | .ok sorted_incomplete =>
    match sortedByKeyE completed_tasks with
    | .error e => .error e
    | .ok sorted_completed => .ok (sorted_completed ++ sorted_incomplete)

/-! ## Derived definitions used by the statements below -/

/-- One candidate of the date loop: search, then attempt to parse the match. -/
def tryPattern (pf : RE × DateFmt) (text : List Char) : Option PyDatetime :=
  match searchRE pf.1 text with
  | some m => strptimeDate pf.2 m
  | none => none

/-- Membership of a keyed task in the equality class of key `k` (Python `==` on
sort keys, which is what stability of `sorted` is about). -/
def classK (k : SortKey) (y : ApiTaskRecord × SortKey) : Bool :=
  decide (cmpKey y.2 k = some Ordering.eq)

/-- Membership of a task in the equality class of key `k`. -/
def taskInClass (k : SortKey) (t : ApiTaskRecord) : Bool :=
  match sort_key t with
  | .ok kt => decide (cmpKey kt k = some Ordering.eq)
  | .error _ => false

/-- Whether the sort keys of two tasks can be compared without a `TypeError`
(vacuously true when either has no key). -/
def pairComparable (t u : ApiTaskRecord) : Bool :=
  match sort_key t, sort_key u with
  | .ok kt, .ok ku => (cmpKey kt ku).isSome
  | _, _ => true

/-- Non-strict ascending order of two keyed tasks. -/
def keyLE (a b : ApiTaskRecord × SortKey) : Prop :=
  cmpKey a.2 b.2 = some Ordering.lt ∨ cmpKey a.2 b.2 = some Ordering.eq

/-- Adjacent sortedness of a keyed list. -/
def SortedK : List (ApiTaskRecord × SortKey) → Prop
  | [] => True
  | [_] => True
  | x :: y :: r => keyLE x y ∧ SortedK (y :: r)

/-- Non-strict ascending order of two tasks by their sort keys. -/
def taskLE (a b : ApiTaskRecord) : Prop :=
  ∃ ka kb, sort_key a = .ok ka ∧ sort_key b = .ok kb ∧
    (cmpKey ka kb = some Ordering.lt ∨ cmpKey ka kb = some Ordering.eq)

/-- Adjacent sortedness of a task list by sort keys. -/
def SortedTasks : List ApiTaskRecord → Prop
  | [] => True
  | [_] => True
  | x :: y :: r => taskLE x y ∧ SortedTasks (y :: r)

/-- The effective due date of a task is a naive datetime. -/
def dueNaiveB (t : ApiTaskRecord) : Bool :=
  match get_due_date t with
  | some d => decide (d.tz = none)
  | none => false

/-- The effective due date of a task is an aware datetime. -/
def dueAwareB (t : ApiTaskRecord) : Bool :=
  match get_due_date t with
  | some d => d.tz.isSome
  | none => false

/-- Characters accepted by the literal atoms of a regex all satisfy `p`. -/
def reOnly (p : Char → Bool) : RE → Bool
  | .eps => true
  | .chr c => p c
  | .cls cs => cs.all p
  | .seq a b => reOnly p a && reOnly p b
  | .alt a b => reOnly p a && reOnly p b

/-- Shorthand for a task paired with its computed sort key. -/
abbrev KTask : Type := ApiTaskRecord × SortKey

/-! ## Lemmas about the comparison functions -/

theorem cmpN_eq_iff (a b : Nat) : cmpN a b = .eq ↔ a = b := by
  unfold cmpN
  rcases Nat.lt_trichotomy a b with h | h | h
  · have h' : ¬ b < a := by omega
    simp [h, h']
    omega
  · subst h
    simp
  · have h' : ¬ a < b := by omega
    simp [h, h']
    omega

theorem cmpN_self (a : Nat) : cmpN a a = .eq := (cmpN_eq_iff a a).mpr rfl

theorem cmpN_swap (a b : Nat) : cmpN b a = (cmpN a b).swap := by
  unfold cmpN
  rcases Nat.lt_trichotomy a b with h | h | h
  · have h' : ¬ b < a := by omega
    simp [h, h', Ordering.swap]
  · subst h
    simp [Ordering.swap]
  · have h' : ¬ a < b := by omega
    simp [h, h', Ordering.swap]

theorem cmpI_eq_iff (a b : Int) : cmpI a b = .eq ↔ a = b := by
  unfold cmpI
  rcases lt_trichotomy a b with h | h | h
  · have h' : ¬ b < a := by omega
    simp [h, h']
    omega
  · subst h
    simp
  · have h' : ¬ a < b := by omega
    simp [h, h']
    omega

theorem cmpI_swap (a b : Int) : cmpI b a = (cmpI a b).swap := by
  unfold cmpI
  rcases lt_trichotomy a b with h | h | h
  · have h' : ¬ b < a := by omega
    simp [h, h', Ordering.swap]
  · subst h
    simp [Ordering.swap]
  · have h' : ¬ a < b := by omega
    simp [h, h', Ordering.swap]

theorem cmpB_eq_iff (a b : Bool) : cmpB a b = .eq ↔ a = b := by
  cases a <;> cases b <;> simp [cmpB]

theorem cmpB_swap (a b : Bool) : cmpB b a = (cmpB a b).swap := by
  cases a <;> cases b <;> simp [cmpB, Ordering.swap]

theorem lexO_eq_iff (o k : Ordering) : lexO o k = .eq ↔ o = .eq ∧ k = .eq := by
  cases o <;> simp [lexO]

theorem lexO_swap (o k : Ordering) : (lexO o k).swap = lexO o.swap k.swap := by
  cases o <;> simp [lexO, Ordering.swap]

theorem cmpDatetime_swap (a b : PyDatetime) :
    cmpDatetime b a = (cmpDatetime a b).map Ordering.swap := by
  unfold cmpDatetime
  cases ha : a.tz <;> cases hb : b.tz
  · simp only [Option.map_some']
    rw [show (lexO (cmpN a.year b.year) (lexO (cmpN a.month b.month) (lexO (cmpN a.day b.day)
      (lexO (cmpN a.hour b.hour) (lexO (cmpN a.minute b.minute)
        (cmpN a.second b.second)))))).swap
      = lexO (cmpN b.year a.year) (lexO (cmpN b.month a.month) (lexO (cmpN b.day a.day)
      (lexO (cmpN b.hour a.hour) (lexO (cmpN b.minute a.minute)
        (cmpN b.second a.second)))))
      from by simp only [lexO_swap, ← cmpN_swap]]
  · simp
  · simp
  · simp only [Option.map_some']
    rw [cmpI_swap]

theorem cmpDatetime_naive_eq (a b : PyDatetime) (ha : a.tz = none) (hb : b.tz = none) :
    cmpDatetime a b = some .eq ↔ a = b := by
  obtain ⟨ay, amo, ad, ah, ami, asec, atz⟩ := a
  obtain ⟨by', bmo, bd, bh, bmi, bsec, btz⟩ := b
  simp only at ha hb
  subst ha hb
  simp [cmpDatetime, lexO_eq_iff, cmpN_eq_iff, PyDatetime.mk.injEq, and_assoc]

theorem cmpDatetime_eq_trans (a b k : PyDatetime)
    (hak : cmpDatetime a k = some .eq) (hbk : cmpDatetime b k = some .eq) :
    cmpDatetime a b = some .eq := by
  cases hk : k.tz with
  | none =>
    cases ha : a.tz with
    | none =>
      cases hb : b.tz with
      | none =>
        have h1 : a = k := (cmpDatetime_naive_eq a k ha hk).mp hak
        have h2 : b = k := (cmpDatetime_naive_eq b k hb hk).mp hbk
        subst h1
        exact (cmpDatetime_naive_eq a b ha hb).mpr h2.symm
      | some ob =>
        unfold cmpDatetime at hbk
        rw [hb, hk] at hbk
        simp at hbk
    | some oa =>
      unfold cmpDatetime at hak
      rw [ha, hk] at hak
      simp at hak
  | some ok =>
    cases ha : a.tz with
    | none =>
      unfold cmpDatetime at hak
      rw [ha, hk] at hak
      simp at hak
    | some oa =>
      cases hb : b.tz with
      | none =>
        unfold cmpDatetime at hbk
        rw [hb, hk] at hbk
        simp at hbk
      | some ob =>
        unfold cmpDatetime at hak hbk ⊢
        rw [ha, hk] at hak
        rw [hb, hk] at hbk
        rw [ha, hb]
        simp only [Option.some.injEq] at hak hbk ⊢
        have h1 := (cmpI_eq_iff _ _).mp hak
        have h2 := (cmpI_eq_iff _ _).mp hbk
        exact (cmpI_eq_iff _ _).mpr (by rw [h1, h2])

theorem cmpOptDT_swap (a b : Option PyDatetime) :
    cmpOptDT b a = (cmpOptDT a b).map Ordering.swap := by
  cases a <;> cases b
  · simp [cmpOptDT, Ordering.swap]
  · simp [cmpOptDT]
  · simp [cmpOptDT]
  · simp only [cmpOptDT]
    exact cmpDatetime_swap _ _

theorem cmpOptDT_eq_trans (a b k : Option PyDatetime)
    (hak : cmpOptDT a k = some .eq) (hbk : cmpOptDT b k = some .eq) :
    cmpOptDT a b = some .eq := by
  cases a <;> cases b <;> cases k <;> simp [cmpOptDT] at hak hbk ⊢
  exact cmpDatetime_eq_trans _ _ _ hak hbk

theorem cmpKey_swap (k1 k2 : SortKey) :
    cmpKey k2 k1 = (cmpKey k1 k2).map Ordering.swap := by
  unfold cmpKey
  rw [cmpB_swap k1.1 k2.1, cmpB_swap k1.2.1 k2.2.1, cmpOptDT_swap k1.2.2 k2.2.2]
  cases cmpB k1.1 k2.1 <;> cases cmpB k1.2.1 k2.2.1 <;>
    cases cmpOptDT k1.2.2 k2.2.2 <;> simp [Ordering.swap]

theorem cmpKey_gt_to_lt (x y : SortKey) (h : cmpKey x y = some .gt) :
    cmpKey y x = some .lt := by
  rw [cmpKey_swap, h]
  rfl

theorem cmpKey_eq_elim (k1 k2 : SortKey) (h : cmpKey k1 k2 = some .eq) :
    k1.1 = k2.1 ∧ k1.2.1 = k2.2.1 ∧ cmpOptDT k1.2.2 k2.2.2 = some .eq := by
  unfold cmpKey at h
  cases h1 : cmpB k1.1 k2.1 <;> rw [h1] at h <;> simp at h
  cases h2 : cmpB k1.2.1 k2.2.1 <;> rw [h2] at h <;> simp at h
  exact ⟨(cmpB_eq_iff _ _).mp h1, (cmpB_eq_iff _ _).mp h2, h⟩

theorem cmpKey_eq_intro (k1 k2 : SortKey) (h1 : k1.1 = k2.1) (h2 : k1.2.1 = k2.2.1)
    (h3 : cmpOptDT k1.2.2 k2.2.2 = some .eq) : cmpKey k1 k2 = some .eq := by
  unfold cmpKey
  rw [(cmpB_eq_iff _ _).mpr h1, (cmpB_eq_iff _ _).mpr h2]
  exact h3

theorem cmpKey_eq_trans (a b k : SortKey)
    (hak : cmpKey a k = some .eq) (hbk : cmpKey b k = some .eq) :
    cmpKey a b = some .eq := by
  obtain ⟨e1, e2, e3⟩ := cmpKey_eq_elim _ _ hak
  obtain ⟨f1, f2, f3⟩ := cmpKey_eq_elim _ _ hbk
  exact cmpKey_eq_intro a b (by rw [e1, f1]) (by rw [e2, f2])
    (cmpOptDT_eq_trans _ _ _ e3 f3)

theorem cmpKey_isSome_of_third (k1 k2 : SortKey)
    (h : (cmpOptDT k1.2.2 k2.2.2).isSome = true) : (cmpKey k1 k2).isSome = true := by
  unfold cmpKey
  cases cmpB k1.1 k2.1 <;> simp
  cases cmpB k1.2.1 k2.2.1 <;> simp
  exact h

/-! ## Lemmas about the stable insertion sort -/

theorem insertK_char (x : KTask) (l out : List KTask) (h : insertK x l = .ok out) :
    ∃ l₁ l₂, l = l₁ ++ l₂ ∧ out = l₁ ++ x :: l₂ ∧
      (∀ y ∈ l₁, cmpKey x.2 y.2 = some .gt) ∧
      (∀ z zs, l₂ = z :: zs → cmpKey x.2 z.2 = some .lt ∨ cmpKey x.2 z.2 = some .eq) := by
  induction l generalizing out with
  | nil =>
    simp [insertK] at h
    exact ⟨[], [], rfl, by simp [h.symm], by simp, by simp⟩
  | cons y ys ih =>
    unfold insertK at h
    cases hc : cmpKey x.2 y.2 with
    | none => rw [hc] at h; simp at h
    | some o =>
      rw [hc] at h
      cases o with
      | gt =>
        simp only [] at h
        cases hr : insertK x ys with
        | error e => rw [hr] at h; simp at h
        | ok r =>
          rw [hr] at h
          simp only [Except.ok.injEq] at h
          obtain ⟨l₁, l₂, hl, hout, hgt, hhead⟩ := ih r hr
          refine ⟨y :: l₁, l₂, by simp [hl], by simp [← h, hout], ?_, hhead⟩
          intro z hz
          rcases List.mem_cons.mp hz with rfl | hz'
          · exact hc
          · exact hgt z hz'
      | lt =>
        simp only [Except.ok.injEq] at h
        exact ⟨[], y :: ys, rfl, by simp [← h], by simp, by
          intro z zs hzz
          cases hzz
          exact Or.inl hc⟩
      | eq =>
        simp only [Except.ok.injEq] at h
        exact ⟨[], y :: ys, rfl, by simp [← h], by simp, by
          intro z zs hzz
          cases hzz
          exact Or.inr hc⟩

theorem insertK_perm (x : KTask) (l out : List KTask) (h : insertK x l = .ok out) :
    out.Perm (x :: l) := by
  obtain ⟨l₁, l₂, hl, hout, _, _⟩ := insertK_char x l out h
  rw [hl, hout]
  exact List.perm_middle

theorem insertK_ok (x : KTask) (l : List KTask)
    (h : ∀ y ∈ l, (cmpKey x.2 y.2).isSome = true) :
    ∃ out, insertK x l = .ok out := by
  induction l with
  | nil => exact ⟨[x], rfl⟩
  | cons y ys ih =>
    have hy := h y (List.mem_cons_self y ys)
    cases hc : cmpKey x.2 y.2 with
    | none => rw [hc] at hy; simp at hy
    | some o =>
      cases o with
      | gt =>
        obtain ⟨r, hr⟩ := ih (fun z hz => h z (List.mem_cons_of_mem y hz))
        exact ⟨y :: r, by simp [insertK, hc, hr]⟩
      | lt => exact ⟨x :: y :: ys, by simp [insertK, hc]⟩
      | eq => exact ⟨x :: y :: ys, by simp [insertK, hc]⟩

theorem insertK_head (x : KTask) (l out : List KTask) (h : insertK x l = .ok out) :
    (∃ t, out = x :: t) ∨ (∃ z zs t, l = z :: zs ∧ out = z :: t) := by
  cases l with
  | nil =>
    simp [insertK] at h
    exact Or.inl ⟨[], h.symm⟩
  | cons y ys =>
    unfold insertK at h
    cases hc : cmpKey x.2 y.2 with
    | none => rw [hc] at h; simp at h
    | some o =>
      rw [hc] at h
      cases o with
      | gt =>
        simp only [] at h
        cases hr : insertK x ys with
        | error e => rw [hr] at h; simp at h
        | ok r =>
          rw [hr] at h
          simp only [Except.ok.injEq] at h
          exact Or.inr ⟨y, ys, r, rfl, h.symm⟩
      | lt =>
        simp only [Except.ok.injEq] at h
        exact Or.inl ⟨y :: ys, h.symm⟩
      | eq =>
        simp only [Except.ok.injEq] at h
        exact Or.inl ⟨y :: ys, h.symm⟩

theorem SortedK_tail (a : KTask) (l : List KTask) (h : SortedK (a :: l)) : SortedK l := by
  cases l with
  | nil => trivial
  | cons b r => exact h.2

theorem SortedK_cons (y : KTask) (l : List KTask)
    (h1 : ∀ z t, l = z :: t → keyLE y z) (h2 : SortedK l) : SortedK (y :: l) := by
  cases l with
  | nil => trivial
  | cons z t => exact ⟨h1 z t rfl, h2⟩

theorem insertK_sorted (x : KTask) (l out : List KTask)
    (hs : SortedK l) (h : insertK x l = .ok out) : SortedK out := by
  induction l generalizing out with
  | nil =>
    simp [insertK] at h
    rw [← h]
    trivial
  | cons y ys ih =>
    unfold insertK at h
    cases hc : cmpKey x.2 y.2 with
    | none => rw [hc] at h; simp at h
    | some o =>
      rw [hc] at h
      cases o with
      | lt =>
        simp only [Except.ok.injEq] at h
        rw [← h]
        exact ⟨Or.inl hc, hs⟩
      | eq =>
        simp only [Except.ok.injEq] at h
        rw [← h]
        exact ⟨Or.inr hc, hs⟩
      | gt =>
        simp only [] at h
        cases hr : insertK x ys with
        | error e => rw [hr] at h; simp at h
        | ok r =>
          rw [hr] at h
          simp only [Except.ok.injEq] at h
          rw [← h]
          have hsr : SortedK r := ih r (SortedK_tail y ys hs) hr
          refine SortedK_cons y r ?_ hsr
          intro z t hzt
          rcases insertK_head x ys r hr with ⟨t', ht'⟩ | ⟨z', zs', t', hys, hr'⟩
          · rw [ht'] at hzt
            cases hzt
            exact Or.inl (cmpKey_gt_to_lt _ _ hc)
          · rw [hr'] at hzt
            cases hzt
            rw [hys] at hs
            exact hs.1

theorem insertK_filter (x : KTask) (l out : List KTask) (k : SortKey)
    (h : insertK x l = .ok out) :
    out.filter (classK k) = (x :: l).filter (classK k) := by
  obtain ⟨l₁, l₂, hl, hout, hgt, _⟩ := insertK_char x l out h
  rw [hl, hout]
  cases hx : classK k x with
  | false =>
    simp [List.filter_append, List.filter_cons, hx]
  | true =>
    have hl₁ : l₁.filter (classK k) = [] := by
      rw [List.filter_eq_nil_iff]
      intro y hy
      intro hyk
      have hx' : cmpKey x.2 k = some Ordering.eq := by
        have hx2 := hx
        unfold classK at hx2
        exact of_decide_eq_true hx2
      have hy' : cmpKey y.2 k = some Ordering.eq := by
        unfold classK at hyk
        exact of_decide_eq_true hyk
      have hxy : cmpKey x.2 y.2 = some Ordering.eq := cmpKey_eq_trans _ _ _ hx' hy'
      have hgt' := hgt y hy
      rw [hgt'] at hxy
      simp at hxy
    simp [List.filter_append, List.filter_cons, hx, hl₁]

theorem isortK_perm (l out : List KTask) (h : isortK l = .ok out) : out.Perm l := by
  induction l generalizing out with
  | nil =>
    simp [isortK] at h
    rw [← h]
  | cons x xs ih =>
    unfold isortK at h
    cases hr : isortK xs with
    | error e => rw [hr] at h; simp at h
    | ok r =>
      rw [hr] at h
      exact (insertK_perm x r out h).trans ((ih r hr).cons x)

theorem isortK_sorted (l out : List KTask) (h : isortK l = .ok out) : SortedK out := by
  induction l generalizing out with
  | nil =>
    simp [isortK] at h
    rw [h]
    trivial
  | cons x xs ih =>
    unfold isortK at h
    cases hr : isortK xs with
    | error e => rw [hr] at h; simp at h
    | ok r =>
      rw [hr] at h
      exact insertK_sorted x r out (ih r hr) h

theorem isortK_ok (l : List KTask)
    (h : ∀ a ∈ l, ∀ b ∈ l, (cmpKey a.2 b.2).isSome = true) :
    ∃ out, isortK l = .ok out := by
  induction l with
  | nil => exact ⟨[], rfl⟩
  | cons x xs ih =>
    obtain ⟨r, hr⟩ := ih (fun a ha b hb =>
      h a (List.mem_cons_of_mem x ha) b (List.mem_cons_of_mem x hb))
    obtain ⟨out, hout⟩ := insertK_ok x r (by
      intro y hy
      have hy' : y ∈ xs := (isortK_perm xs r hr).mem_iff.mp hy
      exact h x (List.mem_cons_self x xs) y (List.mem_cons_of_mem x hy'))
    exact ⟨out, by simp [isortK, hr, hout]⟩

theorem isortK_filter (l out : List KTask) (k : SortKey) (h : isortK l = .ok out) :
    out.filter (classK k) = l.filter (classK k) := by
  induction l generalizing out with
  | nil =>
    simp [isortK] at h
    rw [← h]
  | cons x xs ih =>
    unfold isortK at h
    cases hr : isortK xs with
    | error e => rw [hr] at h; simp at h
    | ok r =>
      rw [hr] at h
      rw [insertK_filter x r out k h]
      simp [List.filter_cons]
      rw [ih r hr]

theorem isortK_sorted_id (l : List KTask) (hs : SortedK l) : isortK l = .ok l := by
  induction l with
  | nil => rfl
  | cons x xs ih =>
    unfold isortK
    rw [ih (SortedK_tail x xs hs)]
    cases xs with
    | nil => rfl
    | cons y ys =>
      have hle : keyLE x y := hs.1
      unfold insertK
      rcases hle with hlt | heq
      · rw [hlt]
      · rw [heq]

/-! ## Lemmas about key computation and sortedByKeyE -/

theorem sort_key_ok_of_title (t : ApiTaskRecord) (s : String) (h : t.title = some s) :
    sort_key t = .ok (completedB t, ! _is_priority_task s t.notes, get_due_date t) := by
  unfold sort_key
  rw [h]

theorem sort_key_ok_iff (t : ApiTaskRecord) :
    (∃ k, sort_key t = .ok k) ↔ t.title.isSome = true := by
  unfold sort_key
  cases h : t.title <;> simp

theorem keyTasksE_char (l : List ApiTaskRecord) (kl : List KTask)
    (h : keyTasksE l = .ok kl) :
    kl.map Prod.fst = l ∧ ∀ p ∈ kl, sort_key p.1 = .ok p.2 := by
  induction l generalizing kl with
  | nil =>
    simp [keyTasksE] at h
    rw [h]
    simp
  | cons t ts ih =>
    unfold keyTasksE at h
    cases hk : sort_key t with
    | error e => rw [hk] at h; simp at h
    | ok k =>
      rw [hk] at h
      cases hr : keyTasksE ts with
      | error e => rw [hr] at h; simp at h
      | ok r =>
        rw [hr] at h
        simp only [Except.ok.injEq] at h
        obtain ⟨ihm, ihp⟩ := ih r hr
        constructor
        · rw [← h]
          simp [ihm]
        · intro p hp
          rw [← h] at hp
          rcases List.mem_cons.mp hp with rfl | hp'
          · exact hk
          · exact ihp p hp'

theorem keyTasksE_ok (l : List ApiTaskRecord) (h : ∀ t ∈ l, t.title.isSome = true) :
    ∃ kl, keyTasksE l = .ok kl := by
  induction l with
  | nil => exact ⟨[], rfl⟩
  | cons t ts ih =>
    obtain ⟨k, hk⟩ := (sort_key_ok_iff t).mpr (h t (List.mem_cons_self t ts))
    obtain ⟨r, hr⟩ := ih (fun u hu => h u (List.mem_cons_of_mem t hu))
    exact ⟨(t, k) :: r, by simp [keyTasksE, hk, hr]⟩

theorem keyTasksE_of_pairs (kl : List KTask)
    (h : ∀ p ∈ kl, sort_key p.1 = .ok p.2) :
    keyTasksE (kl.map Prod.fst) = .ok kl := by
  induction kl with
  | nil => rfl
  | cons p ps ih =>
    have hp := h p (List.mem_cons_self p ps)
    have hr := ih (fun q hq => h q (List.mem_cons_of_mem p hq))
    simp only [List.map_cons]
    unfold keyTasksE
    rw [hp, hr]

theorem filter_class_map (k : SortKey) (kl : List KTask)
    (h : ∀ p ∈ kl, sort_key p.1 = .ok p.2) :
    (kl.map Prod.fst).filter (taskInClass k) = (kl.filter (classK k)).map Prod.fst := by
  induction kl with
  | nil => rfl
  | cons p ps ih =>
    have hp := h p (List.mem_cons_self p ps)
    have hre := ih (fun q hq => h q (List.mem_cons_of_mem p hq))
    simp only [List.map_cons, List.filter_cons]
    have hcls : taskInClass k p.1 = classK k p := by
      unfold taskInClass classK
      rw [hp]
    rw [hcls]
    cases classK k p <;> simp [hre]

theorem sortedTasks_of_sortedK (kl : List KTask) (hs : SortedK kl)
    (h : ∀ p ∈ kl, sort_key p.1 = .ok p.2) :
    SortedTasks (kl.map Prod.fst) := by
  induction kl with
  | nil => trivial
  | cons p ps ih =>
    cases ps with
    | nil => trivial
    | cons q qs =>
      refine ⟨?_, ih hs.2 (fun u hu => h u (List.mem_cons_of_mem p hu))⟩
      exact ⟨p.2, q.2, h p (List.mem_cons_self _ _),
        h q (List.mem_cons_of_mem p (List.mem_cons_self _ _)), hs.1⟩

/-- Central correctness of `sorted(part, key=sort_key)`: when every record has
a title and the computed keys are pairwise comparable, the sort succeeds and
returns a permutation that is sorted and stable (each sort-key equality class
keeps its input order). -/
theorem sortedByKeyE_correct (part : List ApiTaskRecord)
    (ht : ∀ t ∈ part, t.title.isSome = true)
    (hc : ∀ t ∈ part, ∀ u ∈ part, pairComparable t u = true) :
    ∃ out, sortedByKeyE part = .ok out ∧ out.Perm part ∧ SortedTasks out ∧
      (∀ k, out.filter (taskInClass k) = part.filter (taskInClass k)) := by
  obtain ⟨kl, hkl⟩ := keyTasksE_ok part ht
  obtain ⟨hmap, hpairs⟩ := keyTasksE_char part kl hkl
  have hcomp : ∀ a ∈ kl, ∀ b ∈ kl, (cmpKey a.2 b.2).isSome = true := by
    intro a ha b hb
    have ha1 : a.1 ∈ part := by
      rw [← hmap]
      exact List.mem_map_of_mem Prod.fst ha
    have hb1 : b.1 ∈ part := by
      rw [← hmap]
      exact List.mem_map_of_mem Prod.fst hb
    have := hc a.1 ha1 b.1 hb1
    unfold pairComparable at this
    rw [hpairs a ha, hpairs b hb] at this
    exact this
  obtain ⟨skl, hskl⟩ := isortK_ok kl hcomp
  have hperm : skl.Perm kl := isortK_perm kl skl hskl
  have hspairs : ∀ p ∈ skl, sort_key p.1 = .ok p.2 :=
    fun p hp => hpairs p (hperm.mem_iff.mp hp)
  refine ⟨skl.map Prod.fst, ?_, ?_, ?_, ?_⟩
  · simp only [sortedByKeyE, hkl, hskl]
  · rw [← hmap]
    exact hperm.map Prod.fst
  · exact sortedTasks_of_sortedK skl (isortK_sorted kl skl hskl) hspairs
  · intro k
    rw [filter_class_map k skl hspairs, isortK_filter kl skl k hskl,
      ← filter_class_map k kl hpairs, hmap]

/-- Running `sorted` again on its own output succeeds and changes nothing. -/
theorem sortedByKeyE_fixed (part out : List ApiTaskRecord)
    (h : sortedByKeyE part = .ok out) :
    out.Perm part ∧ sortedByKeyE out = .ok out := by
  cases hkl : keyTasksE part with
  | error e => simp [sortedByKeyE, hkl] at h
  | ok kl =>
    simp only [sortedByKeyE, hkl] at h
    cases hskl : isortK kl with
    | error e => simp [hskl] at h
    | ok skl =>
      rw [hskl] at h
      simp only [Except.ok.injEq] at h
      obtain ⟨hmap, hpairs⟩ := keyTasksE_char part kl hkl
      have hperm : skl.Perm kl := isortK_perm kl skl hskl
      have hspairs : ∀ p ∈ skl, sort_key p.1 = .ok p.2 :=
        fun p hp => hpairs p (hperm.mem_iff.mp hp)
      constructor
      · rw [← h, ← hmap]
        exact hperm.map Prod.fst
      · rw [← h]
        simp only [sortedByKeyE, keyTasksE_of_pairs skl hspairs,
          isortK_sorted_id skl (isortK_sorted kl skl hskl)]

/-! ## Lemmas about _order_tasks -/

/-- Central correctness of `_order_tasks` on well-formed comparable inputs. -/
theorem orderTasks_correct (tasks : List ApiTaskRecord)
    (ht : ∀ t ∈ tasks, t.title.isSome = true)
    (hc : ∀ t ∈ tasks, ∀ u ∈ tasks, pairComparable t u = true) :
    ∃ c i, _order_tasks tasks = .ok (c ++ i) ∧ (c ++ i).Perm tasks ∧
      (∀ t ∈ c, completedB t = true) ∧ (∀ t ∈ i, completedB t = false) ∧
      SortedTasks c ∧ SortedTasks i ∧
      (∀ k, c.filter (taskInClass k) =
        (tasks.filter (fun task => completedB task)).filter (taskInClass k)) ∧
      (∀ k, i.filter (taskInClass k) =
        (tasks.filter (fun task => ! completedB task)).filter (taskInClass k)) := by
  have hti : ∀ t ∈ tasks.filter (fun task => ! completedB task), t.title.isSome = true :=
    fun t htm => ht t (List.mem_of_mem_filter htm)
  have htc : ∀ t ∈ tasks.filter (fun task => completedB task), t.title.isSome = true :=
    fun t htm => ht t (List.mem_of_mem_filter htm)
  have hci : ∀ t ∈ tasks.filter (fun task => ! completedB task),
      ∀ u ∈ tasks.filter (fun task => ! completedB task), pairComparable t u = true :=
    fun t htm u hum => hc t (List.mem_of_mem_filter htm) u (List.mem_of_mem_filter hum)
  have hcc : ∀ t ∈ tasks.filter (fun task => completedB task),
      ∀ u ∈ tasks.filter (fun task => completedB task), pairComparable t u = true :=
    fun t htm u hum => hc t (List.mem_of_mem_filter htm) u (List.mem_of_mem_filter hum)
  obtain ⟨si, hsi, hpi, hsorti, hstabi⟩ :=
    sortedByKeyE_correct (tasks.filter (fun task => ! completedB task)) hti hci
  obtain ⟨sc, hsc, hpc, hsortc, hstabc⟩ :=
    sortedByKeyE_correct (tasks.filter (fun task => completedB task)) htc hcc
  refine ⟨sc, si, ?_, ?_, ?_, ?_, hsortc, hsorti, ?_, ?_⟩
  · simp only [_order_tasks, hsi, hsc]
  · exact (hpc.append hpi).trans (List.filter_append_perm _ tasks)
  · intro t htm
    exact List.of_mem_filter (hpc.mem_iff.mp htm)
  · intro t htm
    have := List.of_mem_filter (hpi.mem_iff.mp htm)
    simpa using this
  · intro k
    rw [← hstabc k]
  · intro k
    rw [← hstabi k]

/-- Re-running `_order_tasks` on any of its successful outputs is the
identity. -/
theorem orderTasks_fixed (tasks r : List ApiTaskRecord)
    (h : _order_tasks tasks = .ok r) : _order_tasks r = .ok r := by
  cases hsi : sortedByKeyE (tasks.filter (fun task => ! completedB task)) with
  | error e => simp [_order_tasks, hsi] at h
  | ok si =>
    cases hsc : sortedByKeyE (tasks.filter (fun task => completedB task)) with
    | error e => simp [_order_tasks, hsi, hsc] at h
    | ok sc =>
      have hr : r = sc ++ si := by
        have := h
        simp only [_order_tasks, hsi, hsc, Except.ok.injEq] at this
        exact this.symm
      obtain ⟨hpi, hfixi⟩ := sortedByKeyE_fixed _ si hsi
      obtain ⟨hpc, hfixc⟩ := sortedByKeyE_fixed _ sc hsc
      have hallc : ∀ t ∈ sc, completedB t = true :=
        fun t htm => List.of_mem_filter (hpc.mem_iff.mp htm)
      have halli : ∀ t ∈ si, completedB t = false := by
        intro t htm
        have := List.of_mem_filter (hpi.mem_iff.mp htm)
        simpa using this
      have hfc : r.filter (fun task => completedB task) = sc := by
        rw [hr, List.filter_append]
        rw [List.filter_eq_self.mpr hallc]
        rw [List.filter_eq_nil_iff.mpr (by
          intro t htm
          simp [halli t htm])]
        simp
      have hfi : r.filter (fun task => ! completedB task) = si := by
        rw [hr, List.filter_append]
        rw [List.filter_eq_nil_iff.mpr (by
          intro t htm
          simp [hallc t htm])]
        rw [List.filter_eq_self.mpr (by
          intro t htm
          simp [halli t htm])]
        simp
      simp only [_order_tasks, hfc, hfi, hfixi, hfixc]
      rw [hr]

theorem sort_key_shape (t : ApiTaskRecord) (k : SortKey) (h : sort_key t = .ok k) :
    k.1 = completedB t ∧ k.2.2 = get_due_date t := by
  unfold sort_key at h
  cases ht : t.title with
  | none => rw [ht] at h; simp at h
  | some s =>
    rw [ht] at h
    simp only [Except.ok.injEq] at h
    rw [← h]
    exact ⟨rfl, rfl⟩

theorem pairComparable_of_naive (t u : ApiTaskRecord)
    (hn : dueNaiveB t = true) (hu : dueNaiveB u = true) : pairComparable t u = true := by
  unfold pairComparable
  cases hkt : sort_key t with
  | error e => simp
  | ok kt =>
    cases hku : sort_key u with
    | error e => simp
    | ok ku =>
      simp only []
      obtain ⟨_, hdt⟩ := sort_key_shape t kt hkt
      obtain ⟨_, hdu⟩ := sort_key_shape u ku hku
      apply cmpKey_isSome_of_third
      rw [hdt, hdu]
      unfold dueNaiveB at hn hu
      cases hgt : get_due_date t with
      | none => rw [hgt] at hn; simp at hn
      | some d =>
        cases hgu : get_due_date u with
        | none => rw [hgu] at hu; simp at hu
        | some e =>
          rw [hgt] at hn
          rw [hgu] at hu
          have hdn : d.tz = none := of_decide_eq_true hn
          have hen : e.tz = none := of_decide_eq_true hu
          simp [cmpOptDT, cmpDatetime, hdn, hen]

theorem pairComparable_of_aware (t u : ApiTaskRecord)
    (hn : dueAwareB t = true) (hu : dueAwareB u = true) : pairComparable t u = true := by
  unfold pairComparable
  cases hkt : sort_key t with
  | error e => simp
  | ok kt =>
    cases hku : sort_key u with
    | error e => simp
    | ok ku =>
      simp only []
      obtain ⟨_, hdt⟩ := sort_key_shape t kt hkt
      obtain ⟨_, hdu⟩ := sort_key_shape u ku hku
      apply cmpKey_isSome_of_third
      rw [hdt, hdu]
      unfold dueAwareB at hn hu
      cases hgt : get_due_date t with
      | none => rw [hgt] at hn; simp at hn
      | some d =>
        cases hgu : get_due_date u with
        | none => rw [hgu] at hu; simp at hu
        | some e =>
          rw [hgt] at hn
          rw [hgu] at hu
          obtain ⟨od, hod⟩ := Option.isSome_iff_exists.mp hn
          obtain ⟨oe, hoe⟩ := Option.isSome_iff_exists.mp hu
          simp [cmpOptDT, cmpDatetime, hod, hoe]

/-! ## Claims C1, C6, C10 -/

/-- C1, counterexample: the claim quantifies over every input list, but
`_order_tasks` does not even return a sequence on this spec-valid input —
one incomplete non-priority task with an offset-carrying `due` (parsed to an
aware datetime) and one with no `due` (effective due `datetime.max`, naive):
the key comparison raises `TypeError`. -/
theorem C1_counterexample :
    _order_tasks
      [⟨some "a1", some "write report", none, some "2024-03-01T09:00:00Z", none⟩,
       ⟨some "a2", some "water plants", none, none, none⟩] =
    .error "TypeError: naive and aware datetimes are not comparable" := rfl

/-- C1, amended: on every input whose records all carry a title and whose sort
keys are pairwise comparable (no naive/aware or None/datetime mix among
effective dues), `_order_tasks` succeeds and returns a permutation of the
input (records unchanged) of the form `completed ++ incomplete`, each
partition sorted ascending by the key `(completed, not priority, effective
due)` and stable: every sort-key equality class keeps its relative input
order. -/
theorem C1_order_partition_sorted_stable (tasks : List ApiTaskRecord)
    (ht : ∀ t ∈ tasks, t.title.isSome = true)
    (hc : ∀ t ∈ tasks, ∀ u ∈ tasks, pairComparable t u = true) :
    ∃ out, _order_tasks tasks = .ok out ∧ out.Perm tasks ∧
      (∃ c i, out = c ++ i ∧
        (∀ t ∈ c, completedB t = true) ∧ (∀ t ∈ i, completedB t = false) ∧
        SortedTasks c ∧ SortedTasks i ∧
        (∀ k, c.filter (taskInClass k) =
          (tasks.filter (fun task => completedB task)).filter (taskInClass k)) ∧
        (∀ k, i.filter (taskInClass k) =
          (tasks.filter (fun task => ! completedB task)).filter (taskInClass k))) := by
  obtain ⟨c, i, h1, h2, h3, h4, h5, h6, h7, h8⟩ := orderTasks_correct tasks ht hc
  exact ⟨c ++ i, h1, h2, c, i, rfl, h3, h4, h5, h6, h7, h8⟩

/-- Witness for C1 at a concrete four-task input. -/
theorem C1_witness :
    ∃ out,
      _order_tasks
        [⟨some "1", some "Regular task", none, none, none⟩,
         ⟨some "2", some "Urgent meeting", none, none, none⟩,
         ⟨some "3", some "Another task", none, none, none⟩,
         ⟨some "4", some "Done item", some "completed", none, none⟩] = .ok out ∧
      out.Perm
        [⟨some "1", some "Regular task", none, none, none⟩,
         ⟨some "2", some "Urgent meeting", none, none, none⟩,
         ⟨some "3", some "Another task", none, none, none⟩,
         ⟨some "4", some "Done item", some "completed", none, none⟩] ∧
      (∃ c i, out = c ++ i ∧
        (∀ t ∈ c, completedB t = true) ∧ (∀ t ∈ i, completedB t = false) ∧
        SortedTasks c ∧ SortedTasks i ∧
        (∀ k, c.filter (taskInClass k) =
          (([⟨some "1", some "Regular task", none, none, none⟩,
             ⟨some "2", some "Urgent meeting", none, none, none⟩,
             ⟨some "3", some "Another task", none, none, none⟩,
             ⟨some "4", some "Done item", some "completed", none, none⟩] :
            List ApiTaskRecord).filter (fun task => completedB task)).filter
            (taskInClass k)) ∧
        (∀ k, i.filter (taskInClass k) =
          (([⟨some "1", some "Regular task", none, none, none⟩,
             ⟨some "2", some "Urgent meeting", none, none, none⟩,
             ⟨some "3", some "Another task", none, none, none⟩,
             ⟨some "4", some "Done item", some "completed", none, none⟩] :
            List ApiTaskRecord).filter (fun task => ! completedB task)).filter
            (taskInClass k))) :=
  C1_order_partition_sorted_stable _ (by decide) (by decide)

/-- C6: ordering is idempotent — whenever `_order_tasks tasks` returns a
result `r` (rather than raising), running `_order_tasks` on `r` returns `r`
unchanged. -/
theorem C6_order_idempotent (tasks r : List ApiTaskRecord)
    (h : _order_tasks tasks = .ok r) : _order_tasks r = .ok r :=
  orderTasks_fixed tasks r h

/-- Witness for C6 at the three-task example of the spec. -/
theorem C6_witness :
    _order_tasks
      [⟨some "2", some "Urgent meeting", none, none, none⟩,
       ⟨some "1", some "Regular task", none, none, none⟩,
       ⟨some "3", some "Another task", none, none, none⟩] =
    .ok
      [⟨some "2", some "Urgent meeting", none, none, none⟩,
       ⟨some "1", some "Regular task", none, none, none⟩,
       ⟨some "3", some "Another task", none, none, none⟩] :=
  C6_order_idempotent
    [⟨some "1", some "Regular task", none, none, none⟩,
     ⟨some "2", some "Urgent meeting", none, none, none⟩,
     ⟨some "3", some "Another task", none, none, none⟩] _ rfl

/-- C10: `_order_tasks` is not total.  On a spec-valid input of two incomplete
non-priority tasks — one with an offset-carrying `due` string (parsed to an
aware datetime) and one with no `due` at all (effective due is the naive
`datetime.max`) — the sort-key comparison is undefined and the ordering fails
with a `TypeError`; and it is total when the effective due dates are
uniformly naive or uniformly aware. -/
theorem C10_order_not_total :
    (_order_tasks
      [⟨some "b1", some "file taxes", none, some "2024-05-01T10:00:00+02:00", none⟩,
       ⟨some "b2", some "call plumber", none, none, none⟩] =
      .error "TypeError: naive and aware datetimes are not comparable") ∧
    (∀ tasks : List ApiTaskRecord,
      (∀ t ∈ tasks, t.title.isSome = true) → (∀ t ∈ tasks, dueNaiveB t = true) →
      ∃ out, _order_tasks tasks = .ok out) ∧
    (∀ tasks : List ApiTaskRecord,
      (∀ t ∈ tasks, t.title.isSome = true) → (∀ t ∈ tasks, dueAwareB t = true) →
      ∃ out, _order_tasks tasks = .ok out) := by
  refine ⟨rfl, ?_, ?_⟩
  · intro tasks ht hn
    obtain ⟨c, i, h1, _⟩ := orderTasks_correct tasks ht
      (fun t htm u hum => pairComparable_of_naive t u (hn t htm) (hn u hum))
    exact ⟨c ++ i, h1⟩
  · intro tasks ht hn
    obtain ⟨c, i, h1, _⟩ := orderTasks_correct tasks ht
      (fun t htm u hum => pairComparable_of_aware t u (hn t htm) (hn u hum))
    exact ⟨c ++ i, h1⟩

/-- Witness for C10 at a concrete input with a uniformly naive effective due. -/
theorem C10_witness :
    ∃ out,
      _order_tasks [⟨some "w1", some "buy groceries", none, none, none⟩] = .ok out :=
  C10_order_not_total.2.1
    [⟨some "w1", some "buy groceries", none, none, none⟩] (by decide) (by decide)


/-! ## Lemmas about search and the date loop -/

theorem matchesRem_chars (p : Char → Bool) (r : RE) (h : reOnly p r = true) :
    ∀ s rem, rem ∈ matchesRem r s → ∃ pre, s = pre ++ rem ∧ pre.all p = true := by
  induction r with
  | eps =>
    intro s rem hm
    simp [matchesRem] at hm
    exact ⟨[], by simp [hm], rfl⟩
  | chr c =>
    intro s rem hm
    cases s with
    | nil => simp [matchesRem] at hm
    | cons x t =>
      simp only [matchesRem] at hm
      by_cases hx : x = c
      · rw [if_pos hx] at hm
        simp at hm
        refine ⟨[x], by rw [hm]; rfl, ?_⟩
        unfold reOnly at h
        simp [hx, h]
      · rw [if_neg hx] at hm
        simp at hm
  | cls cs =>
    intro s rem hm
    cases s with
    | nil => simp [matchesRem] at hm
    | cons x t =>
      simp only [matchesRem] at hm
      by_cases hx : cs.contains x = true
      · rw [if_pos hx] at hm
        simp at hm
        refine ⟨[x], by rw [hm]; rfl, ?_⟩
        unfold reOnly at h
        have hxmem : x ∈ cs := by simpa using hx
        simp [List.all_eq_true.mp h x hxmem]
      · rw [if_neg hx] at hm
        simp at hm
  | seq a b iha ihb =>
    intro s rem hm
    unfold reOnly at h
    rw [Bool.and_eq_true] at h
    simp only [matchesRem] at hm
    rw [List.mem_flatMap] at hm
    obtain ⟨mid, hmid, hrem⟩ := hm
    obtain ⟨p1, hp1, ha1⟩ := iha h.1 s mid hmid
    obtain ⟨p2, hp2, ha2⟩ := ihb h.2 mid rem hrem
    exact ⟨p1 ++ p2, by rw [hp1, hp2, List.append_assoc],
      by simp [List.all_append, ha1, ha2]⟩
  | alt a b iha ihb =>
    intro s rem hm
    unfold reOnly at h
    rw [Bool.and_eq_true] at h
    simp only [matchesRem, List.mem_append] at hm
    rcases hm with hm | hm
    · exact iha h.1 s rem hm
    · exact ihb h.2 s rem hm

theorem searchRE_chars (p : Char → Bool) (r : RE) (h : reOnly p r = true) :
    ∀ (s m : List Char), searchRE r s = some m → m.all p = true := by
  intro s
  induction s with
  | nil =>
    intro m hm
    unfold searchRE at hm
    cases hf : firstRem r [] with
    | some rem =>
      rw [hf] at hm
      simp at hm
      simp [hm]
    | none =>
      rw [hf] at hm
      simp at hm
  | cons x t ih =>
    intro m hm
    unfold searchRE at hm
    cases hf : firstRem r (x :: t) with
    | some rem =>
      rw [hf] at hm
      simp only [Option.some.injEq] at hm
      have hmem : rem ∈ matchesRem r (x :: t) := by
        unfold firstRem at hf
        cases hms : matchesRem r (x :: t) with
        | nil => rw [hms] at hf; simp at hf
        | cons r0 rs =>
          rw [hms] at hf
          simp at hf
          rw [← hf]
          exact List.mem_cons_self r0 rs
      obtain ⟨pre, hpre, hall⟩ := matchesRem_chars p r h (x :: t) rem hmem
      rw [← hm, hpre, List.length_append, Nat.add_sub_cancel, List.take_left]
      exact hall
    | none =>
      rw [hf] at hm
      exact ih m hm

theorem dateLoop_cons_none (pf : RE × DateFmt) (rest : List (RE × DateFmt))
    (text : List Char) (h : tryPattern pf text = none) :
    dateLoop (pf :: rest) text = dateLoop rest text := by
  unfold tryPattern at h
  cases hs : searchRE pf.1 text with
  | none => simp only [dateLoop, hs]
  | some m =>
    rw [hs] at h
    have h' : strptimeDate pf.2 m = none := h
    simp only [dateLoop, hs, h']

theorem dateLoop_cons_some (pf : RE × DateFmt) (rest : List (RE × DateFmt))
    (text m : List Char) (d : PyDatetime)
    (hs : searchRE pf.1 text = some m) (hp : strptimeDate pf.2 m = some d) :
    dateLoop (pf :: rest) text = some d := by
  simp only [dateLoop, hs, hp]

theorem dateLoop_none (l : List (RE × DateFmt)) (text : List Char)
    (h : ∀ pf ∈ l, tryPattern pf text = none) :
    dateLoop l text = none := by
  induction l with
  | nil => rfl
  | cons pf rest ih =>
    rw [dateLoop_cons_none pf rest text (h pf (List.mem_cons_self pf rest))]
    exact ih (fun q hq => h q (List.mem_cons_of_mem pf hq))

theorem mkDate_midnight (y m dd : Nat) (d : PyDatetime) (h : mkDate y m dd = some d) :
    d.hour = 0 ∧ d.minute = 0 := by
  unfold mkDate at h
  split at h
  · cases h
    exact ⟨rfl, rfl⟩
  · cases h

theorem strptimeDate_midnight (f : DateFmt) (s : List Char) (d : PyDatetime)
    (h : strptimeDate f s = some d) : d.hour = 0 ∧ d.minute = 0 := by
  unfold strptimeDate at h
  split at h
  · exact mkDate_midnight _ _ _ d h
  · cases h

theorem dateLoop_midnight (l : List (RE × DateFmt)) (text : List Char) (d : PyDatetime)
    (h : dateLoop l text = some d) : d.hour = 0 ∧ d.minute = 0 := by
  induction l with
  | nil => simp [dateLoop] at h
  | cons pf rest ih =>
    unfold dateLoop at h
    cases hs : searchRE pf.1 text with
    | none =>
      rw [hs] at h
      exact ih h
    | some m =>
      rw [hs] at h
      have h2 : (match strptimeDate pf.2 m with
          | some d => some d
          | none => dateLoop rest text) = some d := h
      cases hp : strptimeDate pf.2 m with
      | none =>
        rw [hp] at h2
        exact ih h2
      | some d0 =>
        rw [hp] at h2
        have h3 : some d0 = some d := h2
        cases h3
        exact strptimeDate_midnight pf.2 m d hp

/-! ## Claims C2, C3, C4, C5 -/

/-- C2, counterexample: on the text "12/25/2024" the `%d/%m/%Y` candidate
fails to parse (month 25) and the extracted date is produced by the
`%m/%d/%Y` candidate — `MM/DD/YYYY` is reachable, not dead logic. -/
theorem C2_counterexample :
    _extract_date_time "12/25/2024" = (some ⟨2024, 12, 25, 0, 0, 0, none⟩, none) ∧
    strptimeDate .dmYSlash "12/25/2024".toList = none ∧
    strptimeDate .mdYSlash "12/25/2024".toList = some ⟨2024, 12, 25, 0, 0, 0, none⟩ :=
  ⟨rfl, rfl, rfl⟩

/-- C2, amended: whenever the `YYYY/MM/DD` candidate yields nothing and the
first `NN/NN/NNNN` substring match parses successfully as `%d/%m/%Y`, the
extracted date is that day-first parse — `%m/%d/%Y` is never consulted in
that case.  (The `%m/%d/%Y` candidate is reached exactly when the day-first
parse of the matched substring fails, as in the counterexample.) -/
theorem C2_dmy_wins_when_parseable (text m : List Char) (d : PyDatetime)
    (h1 : tryPattern (reYmdSlash, DateFmt.YmdSlash) text = none)
    (h2 : searchRE reDDSlash text = some m)
    (h3 : strptimeDate DateFmt.dmYSlash m = some d) :
    dateLoop DATE_PATTERNS text = some d := by
  unfold DATE_PATTERNS
  rw [dateLoop_cons_none _ _ _ h1]
  exact dateLoop_cons_some _ _ _ _ _ h2 h3

/-- Witness for C2 on the text "team sync 25/12/2024". -/
theorem C2_witness :
    dateLoop DATE_PATTERNS "team sync 25/12/2024".toList =
      some ⟨2024, 12, 25, 0, 0, 0, none⟩ :=
  C2_dmy_wins_when_parseable "team sync 25/12/2024".toList "25/12/2024".toList
    ⟨2024, 12, 25, 0, 0, 0, none⟩ rfl rfl rfl

/-- C3, counterexample: a record whose `due` is present but unparseable while
its title contains an extractable date.  `fromRemote` yields `due = None`
without falling back to the extractor, and the ordering's effective due is
`None` (neither the extractor result nor `datetime.max`). -/
theorem C3_counterexample :
    _convert_api_item ⟨some "r1", some "Pay bills 27 Nov 2024", none, some "not-a-date", none⟩ =
      .ok ⟨some "Pay bills 27 Nov 2024", some "r1", some .needsAction, none, none⟩ ∧
    get_due_date ⟨some "r1", some "Pay bills 27 Nov 2024", none, some "not-a-date", none⟩ =
      none ∧
    (_extract_date_time "Pay bills 27 Nov 2024 ").1 = some ⟨2024, 11, 27, 0, 0, 0, none⟩ :=
  ⟨rfl, rfl, rfl⟩

/-- C3, amended: when `due` is present but unparseable, `_convert_api_item`
sets the converted item's due to `None` and — for a nonempty `due` string —
`get_due_date` returns `None`; the extractor fallback is not consulted. -/
theorem C3_unparseable_due_no_fallback (record : ApiTaskRecord) (s : String)
    (item : TodoItem) (hdue : record.due = some s) (hparse : parse_datetime s = none) :
    (_convert_api_item record = .ok item → item.due = none) ∧
    (s ≠ "" → get_due_date record = none) := by
  constructor
  · intro hok
    simp only [_convert_api_item, hdue, hparse] at hok
    cases ht : record.title with
    | none => rw [ht] at hok; simp at hok
    | some t =>
      rw [ht] at hok
      cases hi : record.id with
      | none => rw [hi] at hok; simp at hok
      | some i =>
        rw [hi] at hok
        simp only [Except.ok.injEq] at hok
        rw [← hok]
  · intro hne
    unfold get_due_date
    rw [hdue]
    simp [hne, hparse]

/-- Witness for C3 at a concrete record with `due = "not-a-date"`. -/
theorem C3_witness :
    (⟨some "Pay bills 27 Nov 2024", some "r1", some .needsAction, none, none⟩ :
      TodoItem).due = none ∧
    get_due_date ⟨some "r1", some "Pay bills 27 Nov 2024", none, some "not-a-date", none⟩ =
      none :=
  ⟨(C3_unparseable_due_no_fallback
      ⟨some "r1", some "Pay bills 27 Nov 2024", none, some "not-a-date", none⟩
      "not-a-date"
      ⟨some "Pay bills 27 Nov 2024", some "r1", some .needsAction, none, none⟩
      rfl rfl).1 rfl,
   (C3_unparseable_due_no_fallback
      ⟨some "r1", some "Pay bills 27 Nov 2024", none, some "not-a-date", none⟩
      "not-a-date"
      ⟨some "Pay bills 27 Nov 2024", some "r1", some .needsAction, none, none⟩
      rfl rfl).2 (by decide)⟩

/-- C4, counterexample: converting an item with a due timestamp emits an
ISO string that carries both the numeric UTC offset and the literal 'Z' —
not the offset-stripped single-suffix form the claim describes. -/
theorem C4_counterexample :
    (_convert_todo_item ⟨some "T", none, some .needsAction,
        some ⟨2024, 1, 1, 12, 0, 0, some 0⟩, none⟩).due =
      some "2024-01-01T12:00:00+00:00Z" ∧
    some "2024-01-01T12:00:00+00:00Z" ≠
      some (isoformatBase (as_utc ⟨2024, 1, 1, 12, 0, 0, some 0⟩) ++ "Z") := by
  constructor
  · rfl
  · decide

/-- C4, amended: for every item with a set due timestamp, the emitted `due`
string is the UTC ISO rendering still carrying its `+00:00` offset, followed
by the literal 'Z' — a double-suffixed string. -/
theorem C4_due_double_suffix (item : TodoItem) (d : PyDatetime)
    (h : item.due = some d) :
    (_convert_todo_item item).due =
      some (isoformatBase (as_utc d) ++ "+00:00" ++ "Z") := by
  have htz : (as_utc d).tz = some 0 := by
    unfold as_utc
    cases d.tz <;> simp
  have hoff : offsetStr 0 = "+00:00" := by decide
  simp only [_convert_todo_item, h, _format_due_datetime, isoformat, htz, hoff]

/-- Witness for C4 at a concrete item. -/
theorem C4_witness :
    (_convert_todo_item ⟨some "W", none, none, some ⟨2024, 6, 1, 8, 30, 0, none⟩,
        none⟩).due =
      some (isoformatBase (as_utc ⟨2024, 6, 1, 8, 30, 0, none⟩) ++ "+00:00" ++ "Z") :=
  C4_due_double_suffix _ ⟨2024, 6, 1, 8, 30, 0, none⟩ rfl

/-- C5, counterexample: a lowercase 'pm' suffix is not matched — the time
substring found in "… 6:30 pm" is just "6:30", parsed as 24-hour 06:30, not
18:30 as the claim's case-insensitive reading requires. -/
theorem C5_counterexample :
    _extract_date_time "Meeting 27 Nov 2024 6:30 pm" =
      (some ⟨2024, 11, 27, 6, 30, 0, none⟩, some "6:30") := rfl

/-- C5, amended: TIME_PATTERN recognizes the AM/PM suffix in uppercase only —
every matched time substring is free of lowercase letters; "… 6:30 pm"
extracts as 06:30 with raw time "6:30", while "… 6:30 PM" extracts as 18:30
with raw time "6:30 PM". -/
theorem C5_time_uppercase_only :
    (∀ (text m : List Char), searchRE TIME_PATTERN text = some m →
      m.all (fun c => ! c.isLower) = true) ∧
    _extract_date_time "Meeting 27 Nov 2024 6:30 pm" =
      (some ⟨2024, 11, 27, 6, 30, 0, none⟩, some "6:30") ∧
    _extract_date_time "Meeting 27 Nov 2024 6:30 PM" =
      (some ⟨2024, 11, 27, 18, 30, 0, none⟩, some "6:30 PM") := by
  refine ⟨?_, rfl, rfl⟩
  intro text m h
  exact searchRE_chars (fun c => ! c.isLower) TIME_PATTERN (by decide) text m h

/-- Witness for C5 on a concrete search. -/
theorem C5_witness :
    "6:30 PM".toList.all (fun c => ! c.isLower) = true :=
  C5_time_uppercase_only.1 "Meeting 27 Nov 2024 6:30 PM".toList "6:30 PM".toList rfl

/-! ## Claims C7, C8, C9 -/

/-- C7: `_is_priority_task` returns true exactly when the lowercased
concatenation of title, one space, and notes (defaulting to empty) contains
the lowercasing of one of the fixed `PRIORITY_KEYWORDS` as a plain substring. -/
theorem C7_priority_keyword_iff (title : String) (description : Option String) :
    _is_priority_task title description = true ↔
      ∃ keyword ∈ PRIORITY_KEYWORDS,
        containsSub (lowerL keyword.toList)
          (lowerL (title ++ " " ++ description.getD "").toList) = true := by
  unfold _is_priority_task
  rw [List.any_eq_true]

/-- Witness for C7 at the spec's example inputs. -/
theorem C7_witness :
    (_is_priority_task "Urgent meeting" (some "Important discussion") = true ↔
      ∃ keyword ∈ PRIORITY_KEYWORDS,
        containsSub (lowerL keyword.toList)
          (lowerL ("Urgent meeting" ++ " " ++
            (some "Important discussion").getD "").toList) = true) :=
  C7_priority_keyword_iff "Urgent meeting" (some "Important discussion")

/-- C8: extraction is total by construction (every strptime `ValueError` is
caught); when every date candidate fails, the date result is `None`; and when
a date was extracted but the matched time substring fails to parse, the date
is returned with its midnight time unchanged while the raw time substring is
still reported. -/
theorem C8_extract_total_behavior (text : String) :
    ((∀ pf ∈ DATE_PATTERNS, tryPattern pf text.toList = none) →
      (_extract_date_time text).1 = none) ∧
    (∀ d tm, dateLoop DATE_PATTERNS text.toList = some d →
      searchRE TIME_PATTERN text.toList = some tm →
      timeParse tm = none →
      _extract_date_time text = (some d, some (String.mk tm)) ∧
        d.hour = 0 ∧ d.minute = 0) := by
  constructor
  · intro h
    unfold _extract_date_time
    rw [dateLoop_none DATE_PATTERNS text.toList h]
  · intro d tm hd htm htp
    refine ⟨?_, dateLoop_midnight DATE_PATTERNS text.toList d hd⟩
    unfold _extract_date_time
    rw [hd, htm]
    simp [applyTime, htp]

/-- Witness for C8: no candidate matches in "Meeting on invalid date", and in
"task 27 Nov 2024 13:45 PM" the matched time "13:45 PM" fails 12-hour parsing
so the date keeps its midnight time while the raw time is still reported. -/
theorem C8_witness :
    (_extract_date_time "Meeting on invalid date").1 = none ∧
    (_extract_date_time "task 27 Nov 2024 13:45 PM" =
        (some ⟨2024, 11, 27, 0, 0, 0, none⟩, some "13:45 PM") ∧
      (⟨2024, 11, 27, 0, 0, 0, none⟩ : PyDatetime).hour = 0 ∧
      (⟨2024, 11, 27, 0, 0, 0, none⟩ : PyDatetime).minute = 0) :=
  ⟨(C8_extract_total_behavior "Meeting on invalid date").1 (by decide),
   (C8_extract_total_behavior "task 27 Nov 2024 13:45 PM").2
     ⟨2024, 11, 27, 0, 0, 0, none⟩ "13:45 PM".toList rfl rfl rfl⟩

/-- C9: conversion of a remote record fails with a `KeyError` exactly when the
`title` key or the `id` key is absent; with both present it succeeds with no
defaults substituted (summary and uid are the given title and id), and
missing `status`, `due` or `notes` never cause a failure. -/
theorem C9_missing_title_or_id (record : ApiTaskRecord) :
    ((∃ e, _convert_api_item record = .error e) ↔
      (record.title = none ∨ record.id = none)) ∧
    (∀ t i, record.title = some t → record.id = some i →
      ∃ item, _convert_api_item record = .ok item ∧
        item.summary = some t ∧ item.uid = some i) := by
  rcases ht : record.title with _ | t' <;> rcases hi : record.id with _ | i' <;>
    constructor
  · constructor
    · intro _; exact Or.inl rfl
    · intro _; exact ⟨"KeyError: title", by simp [_convert_api_item, ht, hi]⟩
  · intro t i htt _
    cases htt
  · constructor
    · intro _; exact Or.inl rfl
    · intro _; exact ⟨"KeyError: title", by simp [_convert_api_item, ht, hi]⟩
  · intro t i htt _
    cases htt
  · constructor
    · intro _; exact Or.inr rfl
    · intro _; exact ⟨"KeyError: id", by simp [_convert_api_item, ht, hi]⟩
  · intro t i _ hii
    cases hii
  · constructor
    · rintro ⟨e, he⟩
      simp [_convert_api_item, ht, hi] at he
    · rintro (htt | hii)
      · cases htt
      · cases hii
  · intro t i htt hii
    cases htt
    cases hii
    simp only [_convert_api_item, ht, hi]
    exact ⟨_, rfl, rfl, rfl⟩

/-- Witness for C9: success with both keys present, failure with `id` absent. -/
theorem C9_witness :
    (∃ item,
      _convert_api_item ⟨some "9", some "Call dentist", none, none, none⟩ = .ok item ∧
        item.summary = some "Call dentist" ∧ item.uid = some "9") ∧
    ((∃ e, _convert_api_item ⟨none, some "Call dentist", none, none, none⟩ = .error e) ↔
      ((⟨none, some "Call dentist", none, none, none⟩ : ApiTaskRecord).title = none ∨
       (⟨none, some "Call dentist", none, none, none⟩ : ApiTaskRecord).id = none)) :=
  ⟨(C9_missing_title_or_id ⟨some "9", some "Call dentist", none, none, none⟩).2
      "Call dentist" "9" rfl rfl,
   (C9_missing_title_or_id ⟨none, some "Call dentist", none, none, none⟩).1⟩
